import Mathlib

/-!
Verification development for the storage-server repository.
Shallow embedding conventions: Rust byte strings (Vec<u8>, [u8; N]) are
modelled as List Nat with byte values below 256; Sha256::digest is modelled by
an executable SHA-256 over byte lists; fallible or panicking Rust code is
modelled with Option / Except; filesystem and HTTP effects are modelled as
explicit event lists produced by the translated functions.
-/

set_option maxRecDepth 4000

/-! ## Definitions: SHA-256 (model of the sha2 crate), the Merkle tree
(src/merkle/src/tree.rs), the client (src/client/src/http_client.rs) and the
server (src/server/src/app.rs, client_bucket.rs), followed by all theorems. -/

/-- Reduce a natural number to a 32-bit word. -/
def w32 (n : Nat) : Nat := n % 4294967296

/-- Right rotation of a 32-bit word by n bits. -/
def rotr (n x : Nat) : Nat := x / 2 ^ n + x % 2 ^ n * 2 ^ (32 - n)

/-- SHA-256 small sigma 0. -/
def ssig0 (x : Nat) : Nat := rotr 7 x ^^^ rotr 18 x ^^^ x / 2 ^ 3

/-- SHA-256 small sigma 1. -/
def ssig1 (x : Nat) : Nat := rotr 17 x ^^^ rotr 19 x ^^^ x / 2 ^ 10

/-- SHA-256 big sigma 0. -/
def bsig0 (x : Nat) : Nat := rotr 2 x ^^^ rotr 13 x ^^^ rotr 22 x

/-- SHA-256 big sigma 1. -/
def bsig1 (x : Nat) : Nat := rotr 6 x ^^^ rotr 11 x ^^^ rotr 25 x

/-- SHA-256 choice function. -/
def chFn (e f g : Nat) : Nat := (e &&& f) ^^^ ((e ^^^ 4294967295) &&& g)

/-- SHA-256 majority function. -/
def majFn (a b c : Nat) : Nat := (a &&& b) ^^^ (a &&& c) ^^^ (b &&& c)

/-- The 64 SHA-256 round constants. -/
def K256 : List Nat :=
  [1116352408, 1899447441, 3049323471, 3921009573, 961987163, 1508970993,
   2453635748, 2870763221, 3624381080, 310598401, 607225278, 1426881987,
   1925078388, 2162078206, 2614888103, 3248222580, 3835390401, 4022224774,
   264347078, 604807628, 770255983, 1249150122, 1555081692, 1996064986,
   2554220882, 2821834349, 2952996808, 3210313671, 3336571891, 3584528711,
   113926993, 338241895, 666307205, 773529912, 1294757372, 1396182291,
   1695183700, 1986661051, 2177026350, 2456956037, 2730485921, 2820302411,
   3259730800, 3345764771, 3516065817, 3600352804, 4094571909, 275423344,
   430227734, 506948616, 659060556, 883997877, 958139571, 1322822218,
   1537002063, 1747873779, 1955562222, 2024104815, 2227730452, 2361852424,
   2428436474, 2756734187, 3204031479, 3329325298]

/-- The 8 initial SHA-256 state words. -/
def H256 : List Nat :=
  [1779033703, 3144134277, 1013904242, 2773480762, 1359893119, 2600822924,
   528734635, 1541459225]

/-- Message-schedule extension; the accumulator holds the schedule so far in
reverse order (most recent word first). -/
def schedAux : Nat → List Nat → List Nat
  | 0, acc => acc.reverse
  | Nat.succ k, acc =>
      let w2 := acc.getD 1 0
      let w7 := acc.getD 6 0
      let w15 := acc.getD 14 0
      let w16 := acc.getD 15 0
      schedAux k (w32 (ssig1 w2 + w7 + ssig0 w15 + w16) :: acc)

/-- Extend 16 message words to the 64-entry SHA-256 schedule. -/
def schedule (ws : List Nat) : List Nat := schedAux 48 ws.reverse

/-- One SHA-256 round acting on the 8-word working state; the round input is
the 32-bit sum of the round constant and the schedule word. -/
def roundStep (st : Nat × Nat × Nat × Nat × Nat × Nat × Nat × Nat) (kw : Nat) :
    Nat × Nat × Nat × Nat × Nat × Nat × Nat × Nat :=
  match st with
  | (a, b, c, d, e, f, g, h0) =>
      let t1 := w32 (h0 + bsig1 e + chFn e f g + kw)
      let t2 := w32 (bsig0 a + majFn a b c)
      (w32 (t1 + t2), a, b, c, w32 (d + t1), e, f, g)

/-- Split a byte list into big-endian 32-bit words, four bytes each. -/
def toWords : List Nat → List Nat
  | b0 :: b1 :: b2 :: b3 :: rest =>
      (b0 * 16777216 + b1 * 65536 + b2 * 256 + b3) :: toWords rest
  | _ => []

/-- Compress one 64-byte block into the 8-word chaining state. -/
def sha256Compress (hs : List Nat) (block : List Nat) : List Nat :=
  let ws := schedule (toWords block)
  let kws := List.zipWith (fun k w => w32 (k + w)) K256 ws
  match kws.foldl roundStep
      (hs.getD 0 0, hs.getD 1 0, hs.getD 2 0, hs.getD 3 0,
       hs.getD 4 0, hs.getD 5 0, hs.getD 6 0, hs.getD 7 0) with
  | (a, b, c, d, e, f, g, h0) =>
      [w32 (hs.getD 0 0 + a), w32 (hs.getD 1 0 + b), w32 (hs.getD 2 0 + c),
       w32 (hs.getD 3 0 + d), w32 (hs.getD 4 0 + e), w32 (hs.getD 5 0 + f),
       w32 (hs.getD 6 0 + g), w32 (hs.getD 7 0 + h0)]

/-- Big-endian bytes of a value, most significant first. -/
def beBytes : Nat → Nat → List Nat
  | 0, _ => []
  | Nat.succ k, n => n / 2 ^ (8 * k) % 256 :: beBytes k n

/-- SHA-256 padding: append 0x80, zeros, and the 64-bit big-endian bit length. -/
def padMsg (msg : List Nat) : List Nat :=
  let z := (119 - msg.length % 64) % 64
  msg ++ 128 :: List.replicate z 0 ++ beBytes 8 (msg.length * 8)

/-- Split a byte list into 64-byte chunks; the fuel argument bounds the chunk
count and keeps the recursion structural so that it reduces in the kernel. -/
def chunks64Aux : Nat → List Nat → List (List Nat)
  | 0, _ => []
  | Nat.succ k, l => if l = [] then [] else l.take 64 :: chunks64Aux k (l.drop 64)

/-- Split a byte list into 64-byte chunks. -/
def chunks64 (l : List Nat) : List (List Nat) := chunks64Aux (l.length + 1) l

/-- SHA-256 of a byte list, producing the 32-byte digest. -/
def sha256 (msg : List Nat) : List Nat :=
  (((chunks64 (padMsg msg)).foldl sha256Compress H256).map (beBytes 4)).flatten

namespace Merkle

/-- A hash value; Rust type Hash = [u8; 32] modelled as a byte list. -/
abbrev Hash := List Nat

/-- A tree level; Rust type Level = Vec<Hash>. -/
abbrev Level := List Hash

/-- Rust struct Tree with an optional root and the list of levels. -/
structure Tree where
  root : Option Hash
  levels : List Level
deriving Repr, DecidableEq

/-- Rust Tree::default(): no root, no levels. -/
def Tree.empty : Tree := Tree.mk none []

/-- Rust Tree::build_next_level: pair adjacent hashes, duplicating the last
hash of an odd-length level, and hash each concatenated pair. -/
def Tree.build_next_level : List Hash → List Hash
  | [] => []
  | h :: rest =>
      match rest with
      | [] => [sha256 (h ++ h)]
      | h2 :: rest2 => sha256 (h ++ h2) :: Tree.build_next_level rest2

/-- The level-building loop of Tree::build_from_leaves with explicit fuel so
that the recursion is structural and reduces in the kernel; the loop keeps
deriving levels until the last one has at most a single node. -/
def buildLevelsAux : Nat → List Hash → List (List Hash)
  | 0, level => [level]
  | Nat.succ k, level =>
      if level.length ≤ 1 then [level]
      else level :: buildLevelsAux k (Tree.build_next_level level)

/-- The level-building loop of Tree::build_from_leaves; the input length is
always enough fuel. -/
def buildLevels (level : List Hash) : List (List Hash) :=
  buildLevelsAux level.length level

/-- Rust Tree::build_from_leaves: empty input gives the default tree, else all
levels are derived and the root is the single entry of the last level. -/
def Tree.build_from_leaves (leaves : List Hash) : Tree :=
  if leaves = [] then Tree.empty
  else
    let levels := buildLevels leaves
    Tree.mk (levels.getLast?.bind List.head?) levels

/-- Rust Tree::root_hash. -/
def Tree.root_hash (t : Tree) : Option Hash := t.root

/-- Rust Tree::leaves: the first level, or empty. -/
def Tree.leaves (t : Tree) : List Hash := t.levels.head?.getD []

/-- Rust Tree::leaves_count. -/
def Tree.leaves_count (t : Tree) : Nat := t.leaves.length

/-- The proof entry Tree::get_proof produces at one level for path index idx:
sibling hash plus the is-left flag, the pair-with-self entry when the sibling
index equals the level length and the length is odd, and none where the Rust
code would panic (index beyond the level, or a failed odd-length assertion). -/
def entryFor (level : List Hash) (idx : Nat) : Option (Hash × Nat) :=
  let isLeft := idx % 2 == 0
  let pairIdx := if isLeft then idx + 1 else idx - 1
  if pairIdx < level.length then
    some (level.getD pairIdx [], if isLeft then 1 else 0)
  else if pairIdx = level.length then
    if level.length % 2 ≠ 0 then some (level.getD (pairIdx - 1) [], 0) else none
  else none

/-- The loop of Tree::get_proof over the non-root levels, halving the path
index at each step; none models a panic in any iteration. -/
def getProofAux : List (List Hash) → Nat → Option (List (Hash × Nat))
  | [], _ => some []
  | level :: rest, idx =>
      match entryFor level idx, getProofAux rest (idx / 2) with
      | some e, some p => some (e :: p)
      | _, _ => none

/-- Rust Tree::get_proof walks all levels but the last; on an empty tree the
slice bound levels.len() - 1 underflows and the code panics, modelled none. -/
def Tree.get_proof (t : Tree) (index : Nat) : Option (List (Hash × Nat)) :=
  if t.levels = [] then none
  else getProofAux t.levels.dropLast index

/-- One folding step of Tree::verify_proof: the 64-byte buffer gets the
current hash in the left half and the sibling in the right half when the flag
is positive, and the mirrored layout otherwise, then is hashed. -/
def verifyStep (hash : Hash) (pe : Hash × Nat) : Hash :=
  let firstHalf := if pe.2 > 0 then hash else pe.1
  let secondHalf := if pe.2 > 0 then pe.1 else hash
  sha256 (firstHalf ++ secondHalf)

/-- Rust Tree::verify_proof: fold the proof entries starting from the leaf and
compare the result with the root. -/
def Tree.verify_proof (leaf : Hash) (proof : List (Hash × Nat)) (root : Hash) :
    Bool :=
  decide (proof.foldl verifyStep leaf = root)

end Merkle

/-- Modelled from the claim text for C3, for comparison with the source: one
verification fold step reading the side flag as exactly 1. -/
def specFoldStepEq1 (cur : Merkle.Hash) (pe : Merkle.Hash × Nat) : Merkle.Hash :=
  if pe.2 = 1 then sha256 (cur ++ pe.1) else sha256 (pe.1 ++ cur)

/-- Modelled from the amended claim for C3: one verification fold step reading
the side flag as any positive value. -/
def specFoldStepPos (cur : Merkle.Hash) (pe : Merkle.Hash × Nat) : Merkle.Hash :=
  if pe.2 > 0 then sha256 (cur ++ pe.1) else sha256 (pe.1 ++ cur)

/-- The client constant LOCAL_REPO. -/
def LOCAL_REPO : String := "./local_repo"

/-- The client constant STATE_FILE. -/
def STATE_FILE : String := "state_file.bin"

/-- Hex digits used for encoding identifiers and file names. -/
def hexDigits : List String :=
  ["0", "1", "2", "3", "4", "5", "6", "7", "8", "9", "a", "b", "c", "d", "e", "f"]

/-- Hex encoding of a byte list, as produced by the hex crate. -/
def hexEncode (bytes : List Nat) : String :=
  bytes.foldl
    (fun s b => s ++ hexDigits.getD (b / 16) "0" ++ hexDigits.getD (b % 16) "0") ""

/-- Rust client error enum from http_client.rs. -/
inductive ClientError where
  | invalidProof
  | missingMerkleRoot
  | failedDownload : String → String → Nat → ClientError
  | failUpload : String → ClientError
deriving Repr, DecidableEq

/-- Filesystem operations performed by the client, recorded as events. -/
inductive FsOp where
  | write : String → List Nat → FsOp
  | fsync : String → FsOp
  | rename : String → String → FsOp
deriving Repr, DecidableEq

/-- Eight-byte little-endian encoding of a length, as bincode uses for
sequence prefixes. -/
def u64le (n : Nat) : List Nat := (List.range 8).map (fun i => n / 256 ^ i % 256)

/-- Bincode encoding of the client State struct: the tree serializes as its
leaf sequence with a u64 count prefix, followed by the raw 32-byte bucket id. -/
def encodeState (tree : Merkle.Tree) (bucket_id : List Nat) : List Nat :=
  u64le tree.leaves.length ++ tree.leaves.flatten ++ bucket_id

/-- Rust ClientApp::persist_state: a single direct fs::write of the serialized
state to STATE_FILE, returned as the list of filesystem operations performed. -/
def persist_state (tree : Merkle.Tree) (bucket_id : List Nat) : List FsOp :=
  [FsOp.write STATE_FILE (encodeState tree bucket_id)]

/-- Rust ClientApp::verify: require a root and check the proof against it. -/
def client_verify (tree : Merkle.Tree) (proof : List (Merkle.Hash × Nat))
    (hash : Merkle.Hash) : Except ClientError Unit :=
  match tree.root_hash with
  | some merkle_root =>
      if Merkle.Tree.verify_proof hash proof merkle_root then Except.ok ()
      else Except.error ClientError.invalidProof
  | none => Except.error ClientError.missingMerkleRoot

/-- Rust ClientApp::decrypt_and_save_file: apply the ChaCha20 keystream
(abstracted as the cipher argument) and write the result into LOCAL_REPO under
the hex of the file id; returns the write events performed. -/
def decrypt_and_save_file (cipher : List Nat → List Nat) (file_id : List Nat)
    (data : List Nat) : List (String × List Nat) :=
  [(LOCAL_REPO ++ "/" ++ hexEncode file_id, cipher data)]

/-- Rust ClientApp::download_and_verify after the two blob downloads have
produced the ciphertext bytes and the decoded proof: hash the ciphertext,
verify, and only on success decrypt and save; the second component lists the
files written to the download directory. -/
def download_and_verify (tree : Merkle.Tree) (cipher : List Nat → List Nat)
    (file_data : List Nat) (proof : List (Merkle.Hash × Nat)) :
    Except ClientError Unit × List (String × List Nat) :=
  let hash := sha256 file_data
  match client_verify tree proof hash with
  | Except.error e => (Except.error e, [])
  | Except.ok _ => (Except.ok (), decrypt_and_save_file cipher hash file_data)

/-- Completion of one spawned upload task, in arrival order: the upload
returned HTTP 200 with the ciphertext hash (the local path is then deleted),
or it returned a non-200 status giving Err(FailUpload) after hashing, or the
request itself hit a transport error, on which the expect call on the request
result panics the task (so the hash computed just before is dropped and the
local file is not deleted). -/
inductive TaskResult where
  | success : Merkle.Hash → String → TaskResult
  | failure : Merkle.Hash → String → TaskResult
  | transportPanic : Merkle.Hash → String → TaskResult
deriving Repr, DecidableEq

/-- The body of the per-file task in ClientApp::upload_files: a successful
upload pushes its hash onto the shared leaf accumulator and removes the local
file; a non-200 reply only logs; a transport-error panic leaves the
accumulator untouched because the task dies before the push. -/
def uploadTaskStep (acc : List Merkle.Hash × List String) (r : TaskResult) :
    List Merkle.Hash × List String :=
  match r with
  | TaskResult.success h path => (acc.1 ++ [h], acc.2 ++ [path])
  | TaskResult.failure _ _ => acc
  | TaskResult.transportPanic _ _ => acc

/-- Whether a task ended in the transport-error panic. -/
def taskPanicked : TaskResult → Bool
  | TaskResult.transportPanic _ _ => true
  | _ => false

/-- The observable outcome of one ClientApp::upload_files batch. -/
structure BatchOutcome where
  merkle_tree : Merkle.Tree
  deletedFiles : List String
  closedUpload : Bool
  persistOps : List FsOp
deriving Repr, DecidableEq

/-- Rust ClientApp::upload_files: the leaf accumulator starts from the current
leaves and each task completion is folded in arrival order; if any task
panicked on a transport error, JoinSet::join_all resumes the panic and the
batch aborts with no outcome (none) - close_upload, the tree rebuild, and
persist_state never run, though files already deleted by completed tasks stay
deleted; otherwise the upload session is closed, the tree is rebuilt from the
accumulated leaves as they are, and the new state is persisted. -/
def upload_files (oldTree : Merkle.Tree) (bucket_id : List Nat)
    (results : List TaskResult) : Option BatchOutcome :=
  let acc := results.foldl uploadTaskStep (oldTree.leaves, [])
  if results.any taskPanicked then none
  else
    let newTree := Merkle.Tree.build_from_leaves acc.1
    some (BatchOutcome.mk newTree acc.2 true (persist_state newTree bucket_id))

/-- The hash a task contributes to the leaf accumulator, if any. -/
def successLeaf : TaskResult → Option Merkle.Hash
  | TaskResult.success h _ => some h
  | TaskResult.failure _ _ => none
  | TaskResult.transportPanic _ _ => none

/-- The local path a task deletes, if any. -/
def successPath : TaskResult → Option String
  | TaskResult.success _ p => some p
  | TaskResult.failure _ _ => none
  | TaskResult.transportPanic _ _ => none

/-- The server constant UPLOADS_DIR. -/
def UPLOADS_DIR : String := "./buckets"

/-- Strict byte-lexicographic order on hashes, the Ord instance of [u8; 32]
that the BTreeMap in ClientBucket::files sorts by. -/
def hashLtB : List Nat → List Nat → Bool
  | [], [] => false
  | [], _ :: _ => true
  | _ :: _, [] => false
  | x :: xs, y :: ys =>
      if x < y then true else if y < x then false else hashLtB xs ys

/-- Rust struct ClientBucket; the BTreeMap from file hash to path is
represented by its entry list in ascending key order. -/
structure ClientBucket where
  bucket_id : String
  files : List (Merkle.Hash × String)
  merkle_tree : Merkle.Tree
deriving Repr, DecidableEq

/-- The BTreeMap representation invariant: entries strictly ascending in the
byte-lexicographic key order. -/
def filesSortedInv (b : ClientBucket) : Prop :=
  List.Pairwise (fun p q => hashLtB p.1 q.1 = true) b.files

/-- Rust ClientBucket::calculate_merkle_tree: rebuild the tree from the keys
of the files map in their map order. -/
def ClientBucket.calculate_merkle_tree (b : ClientBucket) : ClientBucket :=
  ClientBucket.mk b.bucket_id b.files
    (Merkle.Tree.build_from_leaves (b.files.map Prod.fst))

/-- Rust ClientBucket::get_dir. -/
def ClientBucket.get_dir (b : ClientBucket) : String :=
  UPLOADS_DIR ++ "/" ++ b.bucket_id

/-- Rust BTreeMap::contains_key on the entry-list representation. -/
def containsKey (k : Merkle.Hash) (files : List (Merkle.Hash × String)) : Bool :=
  files.any (fun p => decide (p.1 = k))

/-- Rust BTreeMap::insert on the entry-list representation: place the new key
at its ordered position, replacing an equal key. -/
def insertSorted (k : Merkle.Hash) (v : String) :
    List (Merkle.Hash × String) → List (Merkle.Hash × String)
  | [] => [(k, v)]
  | (k2, v2) :: rest =>
      if hashLtB k k2 then (k, v) :: (k2, v2) :: rest
      else if k = k2 then (k, v) :: rest
      else (k2, v2) :: insertSorted k v rest

/-- Rust handle_upload_file on an existing bucket: hash the body, reject a
duplicate hash with 400 before touching the disk, otherwise write the file
(the writeOk flag tells whether the disk write succeeds) and insert the hash
into the map; returns the HTTP reply, the new bucket state, and the disk
writes performed. -/
def handle_upload_file (bucket : ClientBucket) (filename : String)
    (body : List Nat) (writeOk : Bool) :
    (Nat × String) × ClientBucket × List (String × List Nat) :=
  let file_hash := sha256 body
  if containsKey file_hash bucket.files then
    ((400, "file already uploaded"), bucket, [])
  else
    let file_path := bucket.get_dir ++ "/" ++ filename
    if writeOk then
      ((200, "File uploaded"),
       ClientBucket.mk bucket.bucket_id
         (insertSorted file_hash file_path bucket.files) bucket.merkle_tree,
       [(file_path, body)])
    else
      ((500, "Failed to write file"), bucket, [])

/-- Rust handle_complete_upload on an existing bucket: recalculate the Merkle
tree from the files map and persist the bucket; the flag records that the
bucket was persisted to the database. -/
def handle_complete_upload (bucket : ClientBucket) :
    (Nat × String) × ClientBucket × Bool :=
  ((200, "File upload completed"), bucket.calculate_merkle_tree, true)

/-- Rust ServerState::load_buckets_from_db: recalculate every stored bucket
Merkle tree on startup. -/
def load_buckets_from_db (stored : List (String × ClientBucket)) :
    List (String × ClientBucket) :=
  stored.map (fun e => (e.1, e.2.calculate_merkle_tree))

/-- Modelled from the spec (C9): an atomic persist writes a temporary file,
fsyncs it, and renames it over the state file. -/
def specAtomicPersist (ops : List FsOp) : Prop :=
  ∃ tmp data, tmp ≠ STATE_FILE ∧
    ops = [FsOp.write tmp data, FsOp.fsync tmp, FsOp.rename tmp STATE_FILE]

/-! ## Theorems -/

/-- Sanity check against the standard empty-message test vector
e3b0c44298fc1c149afbf4c8996fb92427ae41e4649b934ca495991b7852b855. -/
example : sha256 [] =
    [0xe3, 0xb0, 0xc4, 0x42, 0x98, 0xfc, 0x1c, 0x14, 0x9a, 0xfb, 0xf4, 0xc8,
     0x99, 0x6f, 0xb9, 0x24, 0x27, 0xae, 0x41, 0xe4, 0x64, 0x9b, 0x93, 0x4c,
     0xa4, 0x95, 0x99, 0x1b, 0x78, 0x52, 0xb8, 0x55] := by decide

/-- Sanity check against the standard test vector for "abc"
ba7816bf8f01cfea414140de5dae2223b00361a396177a9cb410ff61f20015ad. -/
example : sha256 [0x61, 0x62, 0x63] =
    [0xba, 0x78, 0x16, 0xbf, 0x8f, 0x01, 0xcf, 0xea, 0x41, 0x41, 0x40, 0xde,
     0x5d, 0xae, 0x22, 0x23, 0xb0, 0x03, 0x61, 0xa3, 0x96, 0x17, 0x7a, 0x9c,
     0xb4, 0x10, 0xff, 0x61, 0xf2, 0x00, 0x15, 0xad] := by decide

namespace Merkle

/-- The next level halves the node count, rounding up. -/
theorem Tree.build_next_level_length (l : List Hash) :
    (Tree.build_next_level l).length = (l.length + 1) / 2 := by
  match l with
  | [] => rfl
  | [h] => simp [Tree.build_next_level]
  | h1 :: h2 :: rest =>
      have ih := Tree.build_next_level_length rest
      simp only [Tree.build_next_level, List.length_cons, ih]
      omega

/-- Given enough fuel the level-building loop ignores the exact fuel value. -/
theorem buildLevelsAux_fuel (k : Nat) (level : List Hash)
    (hl : level.length ≤ k) :
    buildLevelsAux k level = buildLevelsAux level.length level := by
  match k with
  | 0 =>
      have h0 : level.length = 0 := Nat.le_zero.mp hl
      rw [h0]
  | Nat.succ k =>
      by_cases h1 : level.length ≤ 1
      · rcases Nat.le_one_iff_eq_zero_or_eq_one.mp h1 with h0 | h0 <;>
          simp [buildLevelsAux, h0]
      · have hnextk : (Tree.build_next_level level).length ≤ k := by
          rw [Tree.build_next_level_length]; omega
        obtain ⟨m, hm⟩ : ∃ m, level.length = m + 1 := ⟨level.length - 1, by omega⟩
        have hnextm : (Tree.build_next_level level).length ≤ m := by
          rw [Tree.build_next_level_length]; omega
        have hmk : m < Nat.succ k := by omega
        calc buildLevelsAux (Nat.succ k) level
            = level :: buildLevelsAux k (Tree.build_next_level level) := by
              simp [buildLevelsAux, h1]
          _ = level ::
                buildLevelsAux (Tree.build_next_level level).length
                  (Tree.build_next_level level) := by
              rw [buildLevelsAux_fuel k _ hnextk]
          _ = level :: buildLevelsAux m (Tree.build_next_level level) := by
              rw [buildLevelsAux_fuel m _ hnextm]
          _ = buildLevelsAux (m + 1) level := by simp [buildLevelsAux, h1]
          _ = buildLevelsAux level.length level := by rw [hm]
termination_by k

/-- The one-step unfolding of the level-building loop. -/
theorem buildLevels_eq (level : List Hash) :
    buildLevels level =
      if level.length ≤ 1 then [level]
      else level :: buildLevels (Tree.build_next_level level) := by
  by_cases h1 : level.length ≤ 1
  · unfold buildLevels
    rcases Nat.le_one_iff_eq_zero_or_eq_one.mp h1 with h0 | h0 <;>
      simp [buildLevelsAux, h0]
  · obtain ⟨m, hm⟩ : ∃ m, level.length = m + 1 := ⟨level.length - 1, by omega⟩
    have hnextm : (Tree.build_next_level level).length ≤ m := by
      rw [Tree.build_next_level_length]; omega
    rw [if_neg h1, buildLevels, buildLevels, hm]
    simp only [buildLevelsAux, if_neg h1]
    rw [buildLevelsAux_fuel m _ hnextm]

/-- The level-building loop never returns an empty list of levels. -/
theorem buildLevels_ne_nil (level : List Hash) : buildLevels level ≠ [] := by
  rw [buildLevels_eq]
  by_cases h1 : level.length ≤ 1 <;> simp [h1]

/-- The first level produced by the level-building loop is the input. -/
theorem buildLevels_head (level : List Hash) :
    (buildLevels level).head? = some level := by
  rw [buildLevels_eq]
  by_cases h1 : level.length ≤ 1 <;> simp [h1]

/-- The getLast? of a cons with nonempty tail is the getLast? of the tail. -/
theorem getLast?_cons_ne {α : Type} (a : α) (l : List α) (hne : l ≠ []) :
    (a :: l).getLast? = l.getLast? := by
  cases l with
  | nil => exact absurd rfl hne
  | cons b t => rw [List.getLast?_cons_cons]

/-- For a nonempty input the last level holds exactly one hash. -/
theorem buildLevels_last (level : List Hash) (hne : level ≠ []) :
    ∃ r, (buildLevels level).getLast? = some [r] := by
  rw [buildLevels_eq]
  by_cases h1 : level.length ≤ 1
  · obtain ⟨r, hr⟩ : ∃ r, level = [r] := by
      match level with
      | [] => exact absurd rfl hne
      | [a] => exact ⟨a, rfl⟩
      | a :: b :: t => simp [List.length_cons] at h1
    exact ⟨r, by simp [h1, hr]⟩
  · have hnext : Tree.build_next_level level ≠ [] := by
      have hl := Tree.build_next_level_length level
      intro hcon
      rw [hcon] at hl
      simp at hl
      omega
    obtain ⟨r, hr⟩ := buildLevels_last (Tree.build_next_level level) hnext
    refine ⟨r, ?_⟩
    rw [if_neg h1, getLast?_cons_ne _ _ (buildLevels_ne_nil _), hr]
termination_by level.length
decreasing_by
  rw [Tree.build_next_level_length]
  omega

/-- Dropping down one pair: getD on a two-longer list with a two-larger
index. -/
theorem getD_cons2 (a b : Hash) (l : List Hash) (k : Nat) (d : Hash) :
    (a :: b :: l).getD (k + 2) d = l.getD k d := by
  rw [show k + 2 = (k + 1) + 1 from rfl, List.getD_cons_succ, List.getD_cons_succ]

/-- Shifting the path index by one pair shifts the proof entry one pair down
the level. -/
theorem entryFor_cons2 (a b : Hash) (rest : List Hash) (n : Nat) :
    entryFor (a :: b :: rest) (n + 2) = entryFor rest n := by
  have hmod : (n + 2) % 2 = n % 2 := by omega
  simp only [entryFor, hmod, List.length_cons, beq_iff_eq]
  split_ifs <;>
    first
      | rfl
      | omega
      | (rw [(by omega : n + 2 + 1 = n + 1 + 2), getD_cons2])
      | (rw [(by omega : n + 2 + 1 - 1 = n + 2),
             (by omega : n + 1 - 1 = n), getD_cons2])
      | (rw [(by omega : n + 2 - 1 = (n - 1) + 2), getD_cons2])
      | (rw [(by omega : n + 2 - 1 - 1 = (n - 1 - 1) + 2),
             getD_cons2])

/-- At every level the Rust proof loop produces an entry, and folding the
verification step over it maps the node at the path index to the parent node
at half the index in the next level. -/
theorem step_entry (l : List Hash) (idx : Nat) (h : idx < l.length) :
    ∃ e, entryFor l idx = some e ∧
      verifyStep (l.getD idx []) e = (Tree.build_next_level l).getD (idx / 2) [] ∧
      idx / 2 < (Tree.build_next_level l).length := by
  match l, idx with
  | [], _ => simp at h
  | [x], 0 =>
      refine ⟨(x, 0), ?_, ?_, ?_⟩ <;>
        simp [entryFor, verifyStep, Tree.build_next_level]
  | [x], Nat.succ n => simp at h
  | x1 :: x2 :: rest, 0 =>
      refine ⟨(x2, 1), ?_, ?_, ?_⟩ <;>
        simp [entryFor, verifyStep, Tree.build_next_level,
          Tree.build_next_level_length]
  | x1 :: x2 :: rest, 1 =>
      refine ⟨(x1, 0), ?_, ?_, ?_⟩ <;>
        simp [entryFor, verifyStep, Tree.build_next_level,
          Tree.build_next_level_length]
  | x1 :: x2 :: rest, Nat.succ (Nat.succ n) =>
      have hn : n < rest.length := by simp at h; omega
      obtain ⟨e, he, hstep, hlt⟩ := step_entry rest n hn
      refine ⟨e, ?_, ?_, ?_⟩
      · rw [show Nat.succ (Nat.succ n) = n + 2 from rfl, entryFor_cons2]
        exact he
      · have hdiv : (n + 2) / 2 = n / 2 + 1 := by omega
        rw [show Nat.succ (Nat.succ n) = n + 2 from rfl, hdiv]
        simp only [Tree.build_next_level, List.getD_cons_succ, getD_cons2]
        exact hstep
      · have hdiv : (n + 2) / 2 = n / 2 + 1 := by omega
        rw [show Nat.succ (Nat.succ n) = n + 2 from rfl, hdiv]
        have hbn := Tree.build_next_level_length rest
        simp only [Tree.build_next_level, List.length_cons]
        omega

/-- Folding the verification step over the proof produced for any in-range
index reconstructs the single hash of the last level. -/
theorem fold_to_root (l : List Hash) (idx : Nat) (hidx : idx < l.length) :
    ∃ p r, getProofAux (buildLevels l).dropLast idx = some p ∧
      (buildLevels l).getLast? = some [r] ∧
      p.foldl verifyStep (l.getD idx []) = r := by
  by_cases h1 : l.length ≤ 1
  · obtain ⟨x, hx⟩ : ∃ x, l = [x] := by
      cases l with
      | nil => simp at hidx
      | cons a t =>
          cases t with
          | nil => exact ⟨a, rfl⟩
          | cons b t2 => simp at h1
    subst hx
    have hidx0 : idx = 0 := by simp at hidx; omega
    subst hidx0
    refine ⟨[], x, ?_, ?_, ?_⟩ <;> simp [buildLevels_eq, getProofAux]
  · have hnext_len : (Tree.build_next_level l).length = (l.length + 1) / 2 :=
      Tree.build_next_level_length l
    have hidx2 : idx / 2 < (Tree.build_next_level l).length := by
      rw [hnext_len]; omega
    obtain ⟨p2, r, hp2, hlast, hfold⟩ :=
      fold_to_root (Tree.build_next_level l) (idx / 2) hidx2
    obtain ⟨e, he, hstep, _⟩ := step_entry l idx hidx
    have hbl : buildLevels l = l :: buildLevels (Tree.build_next_level l) := by
      rw [buildLevels_eq, if_neg h1]
    have hne : buildLevels (Tree.build_next_level l) ≠ [] :=
      buildLevels_ne_nil _
    refine ⟨e :: p2, r, ?_, ?_, ?_⟩
    · rw [hbl, List.dropLast_cons_of_ne_nil hne]
      simp [getProofAux, he, hp2]
    · rw [hbl, getLast?_cons_ne _ _ hne]
      exact hlast
    · simp only [List.foldl_cons]
      rw [hstep]
      exact hfold
termination_by l.length
decreasing_by
  rw [Tree.build_next_level_length]
  omega

/-- Concrete sanity check: the proof of a three-leaf tree at index 2 pairs the
leaf with itself at level 0 and is a right node at level 1. -/
example :
    (Tree.build_from_leaves
        [List.replicate 32 1, List.replicate 32 2, List.replicate 32 3]).get_proof 2 =
      some [(List.replicate 32 3, 0),
            (sha256 (List.replicate 32 1 ++ List.replicate 32 2), 0)] := by
  decide

/-- Concrete sanity check: verifying leaf 0 of a two-leaf tree succeeds. -/
example :
    Tree.verify_proof (List.replicate 32 7) [(List.replicate 32 9, 1)]
      (sha256 (List.replicate 32 7 ++ List.replicate 32 9)) = true := by
  decide

/-- The proof produced by the Rust loop has one entry per processed level,
and the entry for level k is computed from that level at the path index
halved k times. -/
theorem getProofAux_get (ls : List (List Hash)) (idx : Nat)
    (p : List (Hash × Nat)) (h : getProofAux ls idx = some p) :
    p.length = ls.length ∧
      ∀ k : Nat, p[k]? = ls[k]?.bind (fun level => entryFor level (idx / 2 ^ k)) := by
  induction ls generalizing idx p with
  | nil =>
      have hp : p = [] := by
        simp only [getProofAux] at h
        exact (Option.some_inj.mp h).symm
      subst hp
      refine ⟨rfl, ?_⟩
      intro k
      simp
  | cons level rest ih =>
      cases he : entryFor level idx with
      | none =>
          simp only [getProofAux, he] at h
          exact Option.noConfusion h
      | some e =>
          cases hrest : getProofAux rest (idx / 2) with
          | none =>
              simp only [getProofAux, he, hrest] at h
              exact Option.noConfusion h
          | some p2 =>
              simp only [getProofAux, he, hrest] at h
              have hp : p = e :: p2 := (Option.some_inj.mp h).symm
              subst hp
              obtain ⟨hlen, hget⟩ := ih (idx / 2) p2 hrest
              refine ⟨by simp [hlen], ?_⟩
              intro k
              cases k with
              | zero =>
                  simp [he]
              | succ k =>
                  have hdiv : idx / 2 / 2 ^ k = idx / 2 ^ (k + 1) := by
                    rw [Nat.div_div_eq_div_mul, pow_succ, Nat.mul_comm]
                  simp only [List.getElem?_cons_succ]
                  rw [hget k, hdiv]

end Merkle

/-- C1: for every nonempty sequence of at most 100 leaves, each a 32-byte
hash, and every in-range index i, the proof produced at i by the tree built
from the leaves verifies the i-th leaf against the tree's root. -/
theorem merkle_round_trip (leaves : List Merkle.Hash) (i : Nat)
    (hbytes : ∀ l ∈ leaves, l.length = 32 ∧ ∀ b ∈ l, b < 256)
    (hlow : 1 ≤ leaves.length) (hhigh : leaves.length ≤ 100)
    (hi : i < leaves.length) :
    ∃ p r, (Merkle.Tree.build_from_leaves leaves).get_proof i = some p ∧
      (Merkle.Tree.build_from_leaves leaves).root_hash = some r ∧
      Merkle.Tree.verify_proof leaves[i] p r = true := by
  have hne : leaves ≠ [] := by
    intro hcon
    rw [hcon] at hlow
    simp at hlow
  obtain ⟨p, r, hp, hlast, hfold⟩ := Merkle.fold_to_root leaves i hi
  have hlevels : (Merkle.Tree.build_from_leaves leaves).levels =
      Merkle.buildLevels leaves := by
    rw [Merkle.Tree.build_from_leaves, if_neg hne]
  have hroot : (Merkle.Tree.build_from_leaves leaves).root = some r := by
    rw [Merkle.Tree.build_from_leaves, if_neg hne]
    show (Merkle.buildLevels leaves).getLast?.bind List.head? = some r
    rw [hlast]
    rfl
  refine ⟨p, r, ?_, hroot, ?_⟩
  · rw [Merkle.Tree.get_proof, hlevels, if_neg (Merkle.buildLevels_ne_nil _)]
    exact hp
  · rw [Merkle.Tree.verify_proof, decide_eq_true_eq]
    rw [List.getD_eq_getElem?_getD, List.getElem?_eq_getElem hi] at hfold
    exact hfold

/-- C1 witness: a concrete two-leaf instance of the round trip. -/
theorem merkle_round_trip_witness :
    ∃ p r,
      (Merkle.Tree.build_from_leaves
          [List.replicate 32 5, List.replicate 32 6]).get_proof 1 = some p ∧
      (Merkle.Tree.build_from_leaves
          [List.replicate 32 5, List.replicate 32 6]).root_hash = some r ∧
      Merkle.Tree.verify_proof
        [List.replicate 32 5, List.replicate 32 6][1] p r = true :=
  merkle_round_trip [List.replicate 32 5, List.replicate 32 6] 1
    (by decide) (by decide) (by decide) (by decide)

namespace Merkle

/-- The proof entry for the last node of an odd-length level pairs the node
with itself under flag 0. -/
theorem entryFor_last_odd (level : List Hash) (hodd : level.length % 2 = 1) :
    entryFor level (level.length - 1) =
      some (level.getD (level.length - 1) [], 0) := by
  have h1 : 1 ≤ level.length := by omega
  simp only [entryFor, beq_iff_eq]
  split_ifs <;> first
    | omega
    | rfl
    | (rw [(by omega : level.length - 1 + 1 - 1 = level.length - 1)])

end Merkle

/-- C4: at any level where the proving path hits the last node of an
odd-length level, the produced proof entry is the node's own hash with flag 0,
matching the duplicate-last pairing of the build step; and a tree built from
three distinct leaves has a second level of exactly two nodes whose last is
the hash of the third leaf concatenated with itself. -/
theorem odd_level_proof_policy :
    (∀ (leaves : List Merkle.Hash) (i k : Nat) (level : List Merkle.Hash),
        leaves ≠ [] → i < leaves.length →
        (Merkle.Tree.build_from_leaves leaves).levels[k]? = some level →
        k + 1 < (Merkle.Tree.build_from_leaves leaves).levels.length →
        level.length % 2 = 1 → i / 2 ^ k = level.length - 1 →
        ∃ p self, (Merkle.Tree.build_from_leaves leaves).get_proof i = some p ∧
          level[level.length - 1]? = some self ∧ p[k]? = some (self, 0)) ∧
    (∀ h1 h2 h3 : Merkle.Hash, h1 ≠ h2 → h2 ≠ h3 → h1 ≠ h3 →
        (Merkle.Tree.build_from_leaves [h1, h2, h3]).levels[1]? =
          some [sha256 (h1 ++ h2), sha256 (h3 ++ h3)]) := by
  constructor
  · intro leaves i k level hne hi hlevel hk hodd hidx
    have hlevels : (Merkle.Tree.build_from_leaves leaves).levels =
        Merkle.buildLevels leaves := by
      rw [Merkle.Tree.build_from_leaves, if_neg hne]
    obtain ⟨p, r, hp, _hlast, _hfold⟩ := Merkle.fold_to_root leaves i hi
    obtain ⟨_hplen, hpget⟩ := Merkle.getProofAux_get _ _ _ hp
    refine ⟨p, level.getD (level.length - 1) [], ?_, ?_, ?_⟩
    · rw [Merkle.Tree.get_proof, hlevels,
        if_neg (Merkle.buildLevels_ne_nil _)]
      exact hp
    · have hlt : level.length - 1 < level.length := by omega
      rw [List.getD_eq_getElem?_getD, List.getElem?_eq_getElem hlt]
      rfl
    · rw [hlevels] at hlevel hk
      have hkd : (Merkle.buildLevels leaves).dropLast[k]? = some level := by
        rw [List.getElem?_dropLast, if_pos (by omega)]
        exact hlevel
      rw [hpget k, hkd, Option.some_bind, hidx,
        Merkle.entryFor_last_odd level hodd]
  · intro h1 h2 h3 _ _ _
    have hb1 : Merkle.Tree.build_next_level [h1, h2, h3] =
        [sha256 (h1 ++ h2), sha256 (h3 ++ h3)] := by
      simp [Merkle.Tree.build_next_level]
    have hb2 : Merkle.Tree.build_next_level
          [sha256 (h1 ++ h2), sha256 (h3 ++ h3)] =
        [sha256 (sha256 (h1 ++ h2) ++ sha256 (h3 ++ h3))] := by
      simp [Merkle.Tree.build_next_level]
    have hlv : Merkle.buildLevels [h1, h2, h3] =
        [h1, h2, h3] :: [sha256 (h1 ++ h2), sha256 (h3 ++ h3)] ::
          [[sha256 (sha256 (h1 ++ h2) ++ sha256 (h3 ++ h3))]] := by
      rw [Merkle.buildLevels_eq, if_neg (by simp), hb1,
        Merkle.buildLevels_eq, if_neg (by simp), hb2,
        Merkle.buildLevels_eq, if_pos (by simp)]
    rw [Merkle.Tree.build_from_leaves, if_neg (by simp)]
    show (Merkle.buildLevels [h1, h2, h3])[1]? = _
    rw [hlv]
    rfl

/-- C4 witness: the general odd-level statement applied to a concrete
three-leaf tree at index 2 and level 0, plus the concrete three-leaf level
shape. -/
theorem odd_level_proof_policy_witness :
    (∃ p self,
      (Merkle.Tree.build_from_leaves
          [List.replicate 32 1, List.replicate 32 2,
           List.replicate 32 3]).get_proof 2 = some p ∧
      [List.replicate 32 1, List.replicate 32 2,
        List.replicate 32 3][3 - 1]? = some self ∧
      p[0]? = some (self, 0)) ∧
    (Merkle.Tree.build_from_leaves
        [List.replicate 32 4, List.replicate 32 5,
         List.replicate 32 6]).levels[1]? =
      some [sha256 (List.replicate 32 4 ++ List.replicate 32 5),
            sha256 (List.replicate 32 6 ++ List.replicate 32 6)] := by
  constructor
  · have := odd_level_proof_policy.1
      [List.replicate 32 1, List.replicate 32 2, List.replicate 32 3] 2 0
      [List.replicate 32 1, List.replicate 32 2, List.replicate 32 3]
      (by decide) (by decide) (by decide) (by decide) (by decide) (by decide)
    simpa using this
  · exact odd_level_proof_policy.2 (List.replicate 32 4) (List.replicate 32 5)
      (List.replicate 32 6) (by decide) (by decide) (by decide)

/-- C10: a tree built from a single leaf has that leaf as its root with no
hashing applied, the proof at index 0 is empty, and verifying any hash with
an empty proof against any root succeeds exactly when the two are equal. -/
theorem single_leaf_degenerate (h g r : Merkle.Hash) :
    (Merkle.Tree.build_from_leaves [h]).root_hash = some h ∧
    (Merkle.Tree.build_from_leaves [h]).get_proof 0 = some [] ∧
    Merkle.Tree.verify_proof g [] r = decide (g = r) := by
  have hlv : Merkle.buildLevels [h] = [[h]] := by
    rw [Merkle.buildLevels_eq, if_pos (by simp)]
  refine ⟨?_, ?_, rfl⟩
  · rw [Merkle.Tree.build_from_leaves, if_neg (by simp)]
    show (Merkle.buildLevels [h]).getLast?.bind List.head? = some h
    rw [hlv]
    rfl
  · rw [Merkle.Tree.build_from_leaves, if_neg (by simp)]
    show Merkle.Tree.get_proof (Merkle.Tree.mk _ (Merkle.buildLevels [h])) 0 = _
    rw [Merkle.Tree.get_proof]
    simp only [hlv]
    rw [if_neg (by simp)]
    rfl

/-- C3 counterexample: with a proof entry whose flag is 2, the code hashes
current-then-sibling although the claim's fold (flag = 1 means left) yields a
different value, so verify_proof returns true where the claim demands false. -/
theorem verify_flag_eq1_counterexample :
    Merkle.Tree.verify_proof (List.replicate 32 10) [(List.replicate 32 11, 2)]
        (sha256 (List.replicate 32 10 ++ List.replicate 32 11)) = true ∧
    List.foldl specFoldStepEq1 (List.replicate 32 10)
        [(List.replicate 32 11, 2)] ≠
      sha256 (List.replicate 32 10 ++ List.replicate 32 11) := by
  constructor
  · decide
  · decide

/-- C3 amended: verify_proof folds the proof from the leaf, hashing
current-then-sibling when the flag is positive and sibling-then-current
otherwise, and returns true exactly when the folded value equals the root;
it is total on all inputs. -/
theorem verify_fold_flag_positive (leaf : Merkle.Hash)
    (proof : List (Merkle.Hash × Nat)) (root : Merkle.Hash) :
    Merkle.Tree.verify_proof leaf proof root =
      decide (proof.foldl specFoldStepPos leaf = root) := by
  have hstep : Merkle.verifyStep = specFoldStepPos := by
    funext cur pe
    by_cases hf : pe.2 > 0 <;> simp [Merkle.verifyStep, specFoldStepPos, hf]
  rw [Merkle.Tree.verify_proof, hstep]

namespace Merkle

/-- Building a tree keeps the input sequence as level 0. -/
theorem Tree.leaves_build (l : List Hash) : (Tree.build_from_leaves l).leaves = l := by
  by_cases h : l = []
  · subst h
    rfl
  · rw [Tree.build_from_leaves, if_neg h]
    show (buildLevels l).head?.getD [] = l
    rw [buildLevels_head]
    rfl

end Merkle

/-- Folding the upload tasks appends exactly the successful hashes and paths,
in arrival order, to the accumulator. -/
theorem uploadTaskFold (results : List TaskResult)
    (acc : List Merkle.Hash × List String) :
    results.foldl uploadTaskStep acc =
      (acc.1 ++ results.filterMap successLeaf,
       acc.2 ++ results.filterMap successPath) := by
  induction results generalizing acc with
  | nil => simp
  | cons r rest ih =>
      cases r with
      | success h path =>
          simp [uploadTaskStep, ih, successLeaf, successPath]
      | failure h path =>
          simp [uploadTaskStep, ih, successLeaf, successPath]
      | transportPanic h path =>
          simp [uploadTaskStep, ih, successLeaf, successPath]

/-- C5: on complete_upload and on startup reload, the rebuilt tree has as its
leaf sequence exactly the keys of the files map, which under the BTreeMap
invariant are in strictly ascending byte-lexicographic order. -/
theorem server_tree_from_sorted_keys (b : ClientBucket)
    (stored : List (String × ClientBucket))
    (hb : filesSortedInv b) (hstored : ∀ e ∈ stored, filesSortedInv e.2) :
    ((handle_complete_upload b).2.1.merkle_tree.leaves = b.files.map Prod.fst ∧
       List.Pairwise (fun a c => hashLtB a c = true)
         (handle_complete_upload b).2.1.merkle_tree.leaves) ∧
    ∀ e ∈ load_buckets_from_db stored,
      e.2.merkle_tree.leaves = e.2.files.map Prod.fst ∧
        List.Pairwise (fun a c => hashLtB a c = true) e.2.merkle_tree.leaves := by
  have hcalc : ∀ c : ClientBucket, filesSortedInv c →
      c.calculate_merkle_tree.merkle_tree.leaves = c.files.map Prod.fst ∧
        List.Pairwise (fun a cc => hashLtB a cc = true)
          c.calculate_merkle_tree.merkle_tree.leaves := by
    intro c hc
    have hleaves : c.calculate_merkle_tree.merkle_tree.leaves =
        c.files.map Prod.fst := Merkle.Tree.leaves_build _
    refine ⟨hleaves, ?_⟩
    rw [hleaves]
    exact (List.pairwise_map).mpr hc
  constructor
  · exact hcalc b hb
  · intro e he
    obtain ⟨orig, horig, heq⟩ := List.mem_map.mp he
    have := hcalc orig.2 (hstored orig horig)
    rw [← heq] at *
    constructor
    · exact this.1
    · exact this.2

/-- C5 witness: a concrete sorted two-file bucket and a one-bucket store. -/
theorem server_tree_from_sorted_keys_witness :
    ((handle_complete_upload
        (ClientBucket.mk "b"
          [(List.replicate 32 1, "p1"), (List.replicate 32 2, "p2")]
          Merkle.Tree.empty)).2.1.merkle_tree.leaves =
      [(List.replicate 32 1, "p1"), (List.replicate 32 2, "p2")].map Prod.fst ∧
      List.Pairwise (fun a c => hashLtB a c = true)
        (handle_complete_upload
          (ClientBucket.mk "b"
            [(List.replicate 32 1, "p1"), (List.replicate 32 2, "p2")]
            Merkle.Tree.empty)).2.1.merkle_tree.leaves) ∧
    ∀ e ∈ load_buckets_from_db
        [("b", ClientBucket.mk "b" [(List.replicate 32 3, "p3")]
            Merkle.Tree.empty)],
      e.2.merkle_tree.leaves = e.2.files.map Prod.fst ∧
        List.Pairwise (fun a c => hashLtB a c = true) e.2.merkle_tree.leaves :=
  server_tree_from_sorted_keys
    (ClientBucket.mk "b"
      [(List.replicate 32 1, "p1"), (List.replicate 32 2, "p2")]
      Merkle.Tree.empty)
    [("b", ClientBucket.mk "b" [(List.replicate 32 3, "p3")] Merkle.Tree.empty)]
    (by constructor <;> simp [hashLtB])
    (by intro e he; simp at he; rw [he]; constructor <;> simp [hashLtB])

/-- C6: when the proof check of the downloaded ciphertext hash against the
stored root fails, download_and_verify returns the InvalidProof error and
writes nothing to the download directory. -/
theorem download_rejects_invalid_proof (tree : Merkle.Tree)
    (cipher : List Nat → List Nat) (file_data : List Nat)
    (proof : List (Merkle.Hash × Nat)) (root : Merkle.Hash)
    (hroot : tree.root_hash = some root)
    (hfail : Merkle.Tree.verify_proof (sha256 file_data) proof root = false) :
    download_and_verify tree cipher file_data proof =
      (Except.error ClientError.invalidProof, []) := by
  simp [download_and_verify, client_verify, hroot, hfail]

/-- C6 witness: an empty download against a one-leaf tree whose root is not
the hash of the empty ciphertext. -/
theorem download_rejects_invalid_proof_witness :
    download_and_verify (Merkle.Tree.build_from_leaves [List.replicate 32 0])
        (fun d => d) [] [] =
      (Except.error ClientError.invalidProof, []) :=
  download_rejects_invalid_proof _ _ _ _ (List.replicate 32 0)
    (by decide) (by decide)

/-- C7: a body whose hash is already a key of the bucket map is rejected with
400 and the literal reply, leaving the bucket untouched and writing nothing to
disk; a fresh hash whose disk write succeeds gets 200 and inserts the hash
with the bucket file path into the map. -/
theorem upload_file_duplicate_fresh (bucket : ClientBucket) (filename : String)
    (body : List Nat) (writeOk : Bool) :
    (containsKey (sha256 body) bucket.files = true →
      handle_upload_file bucket filename body writeOk =
        ((400, "file already uploaded"), bucket, [])) ∧
    (containsKey (sha256 body) bucket.files = false → writeOk = true →
      handle_upload_file bucket filename body writeOk =
        ((200, "File uploaded"),
         ClientBucket.mk bucket.bucket_id
           (insertSorted (sha256 body) (bucket.get_dir ++ "/" ++ filename)
             bucket.files)
           bucket.merkle_tree,
         [(bucket.get_dir ++ "/" ++ filename, body)])) := by
  constructor
  · intro hdup
    simp [handle_upload_file, hdup]
  · intro hfresh hok
    simp [handle_upload_file, hfresh, hok]

/-- C7 witness: a concrete duplicate rejection and a concrete fresh accept. -/
theorem upload_file_duplicate_fresh_witness :
    (handle_upload_file
        (ClientBucket.mk "b" [(sha256 [1], "p")] Merkle.Tree.empty)
        "f" [1] true =
      ((400, "file already uploaded"),
       ClientBucket.mk "b" [(sha256 [1], "p")] Merkle.Tree.empty, [])) ∧
    (handle_upload_file (ClientBucket.mk "b" [] Merkle.Tree.empty)
        "f" [1] true =
      ((200, "File uploaded"),
       ClientBucket.mk "b"
         (insertSorted (sha256 [1])
           ((ClientBucket.mk "b" [] Merkle.Tree.empty).get_dir ++ "/" ++ "f") [])
         Merkle.Tree.empty,
       [((ClientBucket.mk "b" [] Merkle.Tree.empty).get_dir ++ "/" ++ "f",
         [1])])) :=
  ⟨(upload_file_duplicate_fresh
      (ClientBucket.mk "b" [(sha256 [1], "p")] Merkle.Tree.empty)
      "f" [1] true).1 (by decide),
   (upload_file_duplicate_fresh (ClientBucket.mk "b" [] Merkle.Tree.empty)
      "f" [1] true).2 (by decide) rfl⟩

/-- C8 counterexample: a file whose upload hits a transport error panics its
task at the expect on the request result, JoinSet::join_all resumes the panic,
and the batch aborts with no outcome - complete_upload, the tree rebuild, and
the state persist never run, contrary to the claim that the batch still
proceeds for a transport-error file. -/
theorem upload_batch_transport_error_aborts :
    upload_files Merkle.Tree.empty (List.replicate 32 0)
        [TaskResult.transportPanic (List.replicate 32 7) "f"] = none := by
  rfl

/-- C8 amended: an upload returning a non-200 status is logged and skipped,
contributing no leaf and deleting no local file, and as long as no file in the
batch hits a transport error (which panics the task and aborts the whole
batch), the batch still closes the upload session, rebuilds the tree from the
previous leaves plus exactly the successful hashes in arrival order, and
persists the result. -/
theorem upload_batch_skips_failures (oldTree : Merkle.Tree)
    (bucket_id : List Nat) (results : List TaskResult)
    (hnopanic : results.any taskPanicked = false) :
    upload_files oldTree bucket_id results =
      some (BatchOutcome.mk
        (Merkle.Tree.build_from_leaves
          (oldTree.leaves ++ results.filterMap successLeaf))
        (results.filterMap successPath)
        true
        (persist_state
          (Merkle.Tree.build_from_leaves
            (oldTree.leaves ++ results.filterMap successLeaf)) bucket_id)) := by
  simp [upload_files, hnopanic, uploadTaskFold]

/-- C8 witness: a concrete batch with one successful upload and one non-200
failure completes with only the successful hash added and only its file
deleted. -/
theorem upload_batch_skips_failures_witness :
    upload_files Merkle.Tree.empty (List.replicate 32 0)
        [TaskResult.success (List.replicate 32 9) "f1",
         TaskResult.failure (List.replicate 32 8) "f2"] =
      some (BatchOutcome.mk
        (Merkle.Tree.build_from_leaves
          (Merkle.Tree.empty.leaves ++
            List.filterMap successLeaf
              [TaskResult.success (List.replicate 32 9) "f1",
               TaskResult.failure (List.replicate 32 8) "f2"]))
        (List.filterMap successPath
          [TaskResult.success (List.replicate 32 9) "f1",
           TaskResult.failure (List.replicate 32 8) "f2"])
        true
        (persist_state
          (Merkle.Tree.build_from_leaves
            (Merkle.Tree.empty.leaves ++
              List.filterMap successLeaf
                [TaskResult.success (List.replicate 32 9) "f1",
                 TaskResult.failure (List.replicate 32 8) "f2"]))
          (List.replicate 32 0))) :=
  upload_batch_skips_failures Merkle.Tree.empty (List.replicate 32 0)
    [TaskResult.success (List.replicate 32 9) "f1",
     TaskResult.failure (List.replicate 32 8) "f2"] (by decide)

/-- C2: at a failing input where two uploads arrive in descending hash order,
the batch completes and the tree the client code rebuilds (from arrival order,
without sorting) disagrees with the tree the server computes from its sorted
files map, so the post-batch roots differ although both sides hold the same
two leaves. -/
theorem client_unsorted_rebuild_root_mismatch :
    ∃ out, upload_files Merkle.Tree.empty (List.replicate 32 0)
        [TaskResult.success (List.replicate 32 9) "f1",
         TaskResult.success (List.replicate 32 8) "f2"] = some out ∧
      out.merkle_tree.root_hash ≠
        (ClientBucket.mk "b"
            [(List.replicate 32 8, "p8"), (List.replicate 32 9, "p9")]
            Merkle.Tree.empty).calculate_merkle_tree.merkle_tree.root_hash := by
  refine ⟨BatchOutcome.mk
      (Merkle.Tree.build_from_leaves [List.replicate 32 9, List.replicate 32 8])
      ["f1", "f2"] true
      (persist_state
        (Merkle.Tree.build_from_leaves
          [List.replicate 32 9, List.replicate 32 8])
        (List.replicate 32 0)), ?_, ?_⟩
  · decide
  · decide

/-- C9 counterexample: a concrete successful batch completes with a persist
step that is a single direct write, not of the write-temp, fsync, rename shape
the claim demands. -/
theorem persist_state_not_atomic :
    upload_files Merkle.Tree.empty (List.replicate 32 0)
        [TaskResult.success (List.replicate 32 7) "f"] =
      some (BatchOutcome.mk
        (Merkle.Tree.build_from_leaves [List.replicate 32 7]) ["f"] true
        (persist_state (Merkle.Tree.build_from_leaves [List.replicate 32 7])
          (List.replicate 32 0))) ∧
    ¬ specAtomicPersist
        (persist_state (Merkle.Tree.build_from_leaves [List.replicate 32 7])
          (List.replicate 32 0)) := by
  constructor
  · decide
  · intro hcon
    obtain ⟨tmp, data, _hne, hops⟩ := hcon
    have hlen := congrArg List.length hops
    simp [persist_state] at hlen

/-- C9 amended: every upload batch that completes persists the new state with
a single direct write of the serialized state to the state file, with no
temporary file, fsync, or rename. -/
theorem persist_state_direct_write (oldTree : Merkle.Tree)
    (bucket_id : List Nat) (results : List TaskResult) (out : BatchOutcome)
    (hout : upload_files oldTree bucket_id results = some out) :
    out.persistOps =
      [FsOp.write STATE_FILE
        (encodeState
          (Merkle.Tree.build_from_leaves
            (oldTree.leaves ++ results.filterMap successLeaf)) bucket_id)] ∧
    ¬ specAtomicPersist out.persistOps := by
  by_cases hp : results.any taskPanicked = true
  · simp [upload_files, hp] at hout
  · have hp2 : results.any taskPanicked = false := by
      cases hres : results.any taskPanicked
      · rfl
      · exact absurd hres hp
    simp [upload_files, hp2, uploadTaskFold] at hout
    constructor
    · rw [← hout]
      simp [persist_state]
    · intro hcon
      obtain ⟨tmp, data, _hne, hops⟩ := hcon
      rw [← hout] at hops
      have hlen := congrArg List.length hops
      simp [persist_state] at hlen

/-- C9 amended witness: the direct-write shape at a concrete completed batch. -/
theorem persist_state_direct_write_witness :
    (BatchOutcome.mk
        (Merkle.Tree.build_from_leaves [List.replicate 32 7]) ["f"] true
        (persist_state (Merkle.Tree.build_from_leaves [List.replicate 32 7])
          (List.replicate 32 0))).persistOps =
      [FsOp.write STATE_FILE
        (encodeState
          (Merkle.Tree.build_from_leaves
            (Merkle.Tree.empty.leaves ++
              List.filterMap successLeaf
                [TaskResult.success (List.replicate 32 7) "f"]))
          (List.replicate 32 0))] ∧
    ¬ specAtomicPersist
        (BatchOutcome.mk
          (Merkle.Tree.build_from_leaves [List.replicate 32 7]) ["f"] true
          (persist_state (Merkle.Tree.build_from_leaves [List.replicate 32 7])
            (List.replicate 32 0))).persistOps :=
  persist_state_direct_write Merkle.Tree.empty (List.replicate 32 0)
    [TaskResult.success (List.replicate 32 7) "f"]
    (BatchOutcome.mk
      (Merkle.Tree.build_from_leaves [List.replicate 32 7]) ["f"] true
      (persist_state (Merkle.Tree.build_from_leaves [List.replicate 32 7])
        (List.replicate 32 0)))
    (by decide)
